import Mathlib

/-!
Shallow embedding of `paddle/fluid/distributed/fleet_executor/compute_interceptor.cc`
(the credit-based flow controller of one pipeline stage, class `ComputeInterceptor`).

The interceptor's mutable state is the pair of `std::map<int64_t, std::pair<int64_t,
int64_t>>` members `in_readys_` (peer id -> (max_ready_size, ready_size)) and
`out_buffs_` (peer id -> (max_buff_size, used_size)).  We embed each map as an
association list kept in iteration order; `int64_t` values become `Int` (no
arithmetic in the source can overflow 64 bits: counters move by 1 and are bounded
by their capacities, which are at most 2^63 - 1).

A `PADDLE_ENFORCE_*` failure raises an exception: we model every operation as
returning `Option Err` alongside the state it leaves behind (mutations already
performed before the failing check persist, exactly as in the C++).  Outbound
`Send` calls are modelled by accumulating a list of `OutMsg`.  The `while` loop
in `ComputeInterceptor::Run` has no structural bound, so `Run` takes a fuel
argument; `fuelExhausted = true` records that fuel ran out with the loop guard
still true (the real loop would have kept iterating).
-/

namespace ComputeInterceptor

/-- `int64_t` interceptor / stage identifier. -/
abbrev StageId := Int

/-- One map value: `(capacity, count)` = `std::pair<int64_t, int64_t>`
(`(max_ready_size, ready_size)` upstream, `(max_buff_size, used_size)` downstream). -/
abbrev Edge := Int × Int

/-- The credit state of one stage: the members `in_readys_` and `out_buffs_`,
as association lists in map-iteration order. -/
structure State where
  in_readys : List (StageId × Edge)
  out_buffs : List (StageId × Edge)
deriving DecidableEq

/-- The three fatal protocol errors a `PADDLE_ENFORCE_*` can raise:
`NotFound` on a missing peer (spec name `UnknownPeer`), `OutOfRange` on a counter
exceeding its capacity (`CreditOverflow`) or going negative (`CreditUnderflow`). -/
inductive Err where
  | unknownPeer (id : StageId)
  | creditOverflow (id : StageId)
  | creditUnderflow (id : StageId)
deriving DecidableEq

/-- The message kinds `ComputeInterceptor::Compute` inspects: `DATA_IS_READY`,
`DATE_IS_USELESS` (the source's spelling), and any other type (ignored). -/
inductive MsgType where
  | dataIsReady
  | dateIsUseless
  | other
deriving DecidableEq, BEq

/-- An inbound `InterceptorMessage`: its `message_type()` and `src_id()`. -/
structure Msg where
  message_type : MsgType
  src_id : StageId
deriving DecidableEq

/-- An outbound message produced by `Send(dest, msg)`. -/
structure OutMsg where
  dest : StageId
  ty : MsgType
deriving DecidableEq, BEq

/-- `std::map::find` on the association list: the value stored under `id`. -/
def lookupEdge : List (StageId × Edge) → StageId → Option Edge
  | [], _ => none
  | (k, e) :: rest, id => if k = id then some e else lookupEdge rest id

/-- Store a new count under `id` (the `it->second.second = ...` write),
keeping the capacity and every other entry unchanged. -/
def setCount : List (StageId × Edge) → StageId → Int → List (StageId × Edge)
  | [], _, _ => []
  | (k, (cap, cnt)) :: rest, id, c =>
    if k = id then (k, (cap, c)) :: rest else (k, (cap, cnt)) :: setCount rest id c

/-- `ComputeInterceptor::IncreaseReady(up_id)`: find `up_id` in `in_readys_`
(`NotFound` if absent), add 1 to its `ready_size`, enforce
`ready_size <= max_ready_size` (`OutOfRange` otherwise), then store.  The failing
checks happen before the store, so on error the state is unchanged. -/
def IncreaseReady (up_id : StageId) (s : State) : Option Err × State :=
  match lookupEdge s.in_readys up_id with
  | none => (some (.unknownPeer up_id), s)
  | some (max_ready_size, ready_size₀) =>
    let ready_size := ready_size₀ + 1
    if ready_size ≤ max_ready_size then
      (none, { s with in_readys := setCount s.in_readys up_id ready_size })
    else
      (some (.creditOverflow up_id), s)

/-- `ComputeInterceptor::DecreaseBuff(down_id)`: find `down_id` in `out_buffs_`
(`NotFound` if absent), subtract 1 from its `used_size`, enforce
`used_size >= 0` (`OutOfRange` otherwise), then store. -/
def DecreaseBuff (down_id : StageId) (s : State) : Option Err × State :=
  match lookupEdge s.out_buffs down_id with
  | none => (some (.unknownPeer down_id), s)
  | some (max_buff_size, used_size₀) =>
    let used_size := used_size₀ - 1
    if 0 ≤ used_size then
      (none, { s with out_buffs := setCount s.out_buffs down_id used_size })
    else
      (some (.creditUnderflow down_id), s)

/-- `ComputeInterceptor::IsInputReady()`: false as soon as some upstream edge has
`ready_size == 0`, true otherwise (vacuously true with no upstream edges). -/
def IsInputReady (s : State) : Bool :=
  s.in_readys.all (fun e => e.2.2 != 0)

/-- `ComputeInterceptor::CanWriteOutput()`: false as soon as some downstream edge
has `used_size == max_buffer_size`, true otherwise. -/
def CanWriteOutput (s : State) : Bool :=
  s.out_buffs.all (fun e => e.2.2 != e.2.1)

/-- The loop body of `SendDataReadyToDownStream` over the remaining entries of
`out_buffs_`: per entry, add 1 to `used_size`, enforce `used_size <= max_buff_size`,
store, and send `DATA_IS_READY` to the peer.  On failure the current and later
entries are left untouched and no further message is sent, but updates and sends
already performed for earlier entries persist. -/
def sendDataReadyAux : List (StageId × Edge) → Option Err × List (StageId × Edge) × List OutMsg
  | [] => (none, [], [])
  | (down_id, (max_buff_size, used_size₀)) :: rest =>
    let used_size := used_size₀ + 1
    if used_size ≤ max_buff_size then
      match sendDataReadyAux rest with
      | (err, rest', msgs) =>
        (err, (down_id, (max_buff_size, used_size)) :: rest',
          ⟨down_id, .dataIsReady⟩ :: msgs)
    else
      (some (.creditOverflow down_id), (down_id, (max_buff_size, used_size₀)) :: rest, [])

/-- `ComputeInterceptor::SendDataReadyToDownStream()`. -/
def SendDataReadyToDownStream (s : State) : Option Err × State × List OutMsg :=
  match sendDataReadyAux s.out_buffs with
  | (err, buffs, msgs) => (err, { s with out_buffs := buffs }, msgs)

/-- The loop body of `ReplyCompletedToUpStream` over the remaining entries of
`in_readys_`: per entry, subtract 1 from `ready_size`, enforce `ready_size >= 0`,
store, and send `DATE_IS_USELESS` to the peer. -/
def replyCompletedAux : List (StageId × Edge) → Option Err × List (StageId × Edge) × List OutMsg
  | [] => (none, [], [])
  | (up_id, (cap, ready_size₀)) :: rest =>
    let ready_size := ready_size₀ - 1
    if 0 ≤ ready_size then
      match replyCompletedAux rest with
      | (err, rest', msgs) =>
        (err, (up_id, (cap, ready_size)) :: rest',
          ⟨up_id, .dateIsUseless⟩ :: msgs)
    else
      (some (.creditUnderflow up_id), (up_id, (cap, ready_size₀)) :: rest, [])

/-- `ComputeInterceptor::ReplyCompletedToUpStream()`. -/
def ReplyCompletedToUpStream (s : State) : Option Err × State × List OutMsg :=
  match replyCompletedAux s.in_readys with
  | (err, readys, msgs) => (err, { s with in_readys := readys }, msgs)

/-- Result of one invocation of `ComputeInterceptor::Run` (or `Compute`):
the error raised (if any), the state left behind, the messages sent in order,
the number of completed loop iterations, and whether the fuel ran out while the
loop guard was still true. -/
structure RunOut where
  err : Option Err
  st : State
  msgs : List OutMsg
  iters : Nat
  fuelExhausted : Bool
deriving DecidableEq

/-- `ComputeInterceptor::Run()`: `while (IsInputReady() && CanWriteOutput())`,
each iteration calling `SendDataReadyToDownStream()` then
`ReplyCompletedToUpStream()` (the work unit itself is a TODO in the source).
Fuel bounds the number of iterations we unfold; the loop itself has no bound. -/
def Run : Nat → State → RunOut
  | 0, s =>
    if IsInputReady s && CanWriteOutput s then
      ⟨none, s, [], 0, true⟩
    else
      ⟨none, s, [], 0, false⟩
  | fuel + 1, s =>
    if IsInputReady s && CanWriteOutput s then
      match SendDataReadyToDownStream s with
      | (some e, s', msgs) => ⟨some e, s', msgs, 0, false⟩
      | (none, s', msgs₁) =>
        match ReplyCompletedToUpStream s' with
        | (some e, s'', msgs₂) => ⟨some e, s'', msgs₁ ++ msgs₂, 0, false⟩
        | (none, s'', msgs₂) =>
          let r := Run fuel s''
          ⟨r.err, r.st, msgs₁ ++ msgs₂ ++ r.msgs, r.iters + 1, r.fuelExhausted⟩
    else
      ⟨none, s, [], 0, false⟩

/-- `ComputeInterceptor::Compute(msg)`, the registered message handler:
on `DATA_IS_READY`, `IncreaseReady(src)` then `Run()`; on `DATE_IS_USELESS`,
`DecreaseBuff(src)` then `Run()`; any other message type is ignored.  An
exception raised by the first call aborts the handler before `Run`. -/
def Compute (fuel : Nat) (msg : Msg) (s : State) : RunOut :=
  match msg.message_type with
  | .dataIsReady =>
    match IncreaseReady msg.src_id s with
    | (some e, s') => ⟨some e, s', [], 0, false⟩
    | (none, s') => Run fuel s'
  | .dateIsUseless =>
    match DecreaseBuff msg.src_id s with
    | (some e, s') => ⟨some e, s', [], 0, false⟩
    | (none, s') => Run fuel s'
  | .other => ⟨none, s, [], 0, false⟩

/-- `std::numeric_limits<int64_t>::max()`. -/
def int64Max : Int := 2 ^ 63 - 1

/-- `ComputeInterceptor::PrepareDeps()`: one upstream entry per upstream peer
with capacity `in_buff_size = int64 max` and count 0, one downstream entry per
downstream peer with capacity `out_buff_size = 2` and count 0. -/
def PrepareDeps (upstream downstream : List StageId) : State :=
  { in_readys := upstream.map (fun id => (id, (int64Max, 0)))
    out_buffs := downstream.map (fun id => (id, (2, 0))) }

/-- Deliver a list of messages in order through `Compute`, stopping at the first
fatal error (the actor is dead once an enforce fires). -/
def ComputeSeq (fuel : Nat) : List Msg → State → Option Err × State
  | [], s => (none, s)
  | m :: rest, s =>
    let r := Compute fuel m s
    match r.err with
    | some e => (some e, r.st)
    | none => ComputeSeq fuel rest r.st

/-- The credit contract for one inbound message in a given state: `DATA_IS_READY`
only from a configured upstream peer whose `ready_size` is strictly below its
capacity, `DATE_IS_USELESS` only from a configured downstream peer whose
`used_size` is nonzero. -/
def validMsg (s : State) (m : Msg) : Bool :=
  match m.message_type with
  | .dataIsReady =>
    match lookupEdge s.in_readys m.src_id with
    | some (cap, cnt) => cnt != cap
    | none => false
  | .dateIsUseless =>
    match lookupEdge s.out_buffs m.src_id with
    | some (_, cnt) => cnt != 0
    | none => false
  | .other => true

/-- A message sequence respecting the credit contract along the trace it
itself produces. -/
inductive SeqValid (fuel : Nat) : State → List Msg → Prop where
  | nil (s : State) : SeqValid fuel s []
  | cons {s : State} {m : Msg} {rest : List Msg} :
      validMsg s m = true →
      SeqValid fuel (Compute fuel m s).st rest →
      SeqValid fuel s (m :: rest)

/-- The per-edge counter invariant `0 <= count <= capacity`. -/
def EdgeInv (e : StageId × Edge) : Prop := 0 ≤ e.2.2 ∧ e.2.2 ≤ e.2.1

/-- The stage invariant: every upstream edge satisfies
`0 <= ready_size <= max_ready_size` and every downstream edge satisfies
`0 <= used_size <= max_buff_size`. -/
def Inv (s : State) : Prop :=
  (∀ e ∈ s.in_readys, EdgeInv e) ∧ (∀ e ∈ s.out_buffs, EdgeInv e)

instance : DecidablePred EdgeInv := fun e => by unfold EdgeInv; infer_instance

instance (s : State) : Decidable (Inv s) := by unfold Inv; infer_instance

/-- Count incremented by 1, capacity kept: the effect of one successful
`SendDataReadyToDownStream` entry. -/
def incUsedOne (e : StageId × Edge) : StageId × Edge := (e.1, (e.2.1, e.2.2 + 1))

/-- Count decremented by 1, capacity kept: the effect of one successful
`ReplyCompletedToUpStream` entry. -/
def decReadyOne (e : StageId × Edge) : StageId × Edge := (e.1, (e.2.1, e.2.2 - 1))

/-- The `DATA_IS_READY` message sent to a downstream entry's peer. -/
def readyMsgOf (e : StageId × Edge) : OutMsg := ⟨e.1, .dataIsReady⟩

/-- The `DATE_IS_USELESS` message sent to an upstream entry's peer. -/
def uselessMsgOf (e : StageId × Edge) : OutMsg := ⟨e.1, .dateIsUseless⟩

/-- Minimum `ready_size` over a nonempty list of upstream entries (0 for an
empty list, unused in that case). -/
def minCnt : List (StageId × Edge) → Int
  | [] => 0
  | [e] => e.2.2
  | e :: f :: r => min e.2.2 (minCnt (f :: r))

/-- Some downstream edge is saturated: `used_size == max_buff_size`. -/
def Saturated (s : State) : Prop := ∃ e ∈ s.out_buffs, e.2.2 = e.2.1

instance (s : State) : Decidable (Saturated s) := by unfold Saturated; infer_instance

/-! ### Association-list lemmas -/

theorem lookupEdge_mem {l : List (StageId × Edge)} {id : StageId} {v : Edge}
    (h : lookupEdge l id = some v) : (id, v) ∈ l := by
  induction l with
  | nil => simp [lookupEdge] at h
  | cons hd tl ih =>
    obtain ⟨k, e⟩ := hd
    by_cases hk : k = id
    · subst hk
      simp [lookupEdge] at h
      subst h
      exact List.mem_cons_self _ _
    · simp [lookupEdge, hk] at h
      exact List.mem_cons_of_mem _ (ih h)

theorem lookup_setCount_self {l : List (StageId × Edge)} {id : StageId}
    {cap cnt : Int} (c : Int) (h : lookupEdge l id = some (cap, cnt)) :
    lookupEdge (setCount l id c) id = some (cap, c) := by
  induction l with
  | nil => simp [lookupEdge] at h
  | cons hd tl ih =>
    obtain ⟨k, capₕ, cntₕ⟩ := hd
    by_cases hk : k = id
    · subst hk
      simp [lookupEdge] at h
      simp [setCount, lookupEdge, h.1]
    · simp [lookupEdge, hk] at h
      simp [setCount, lookupEdge, hk, ih h]

theorem lookup_setCount_ne {l : List (StageId × Edge)} {id id₂ : StageId}
    {c : Int} (h : id₂ ≠ id) :
    lookupEdge (setCount l id c) id₂ = lookupEdge l id₂ := by
  induction l with
  | nil => simp [setCount]
  | cons hd tl ih =>
    obtain ⟨k, capₕ, cntₕ⟩ := hd
    by_cases hk : k = id
    · subst hk
      have hk₂ : ¬ k = id₂ := fun hc => h hc.symm
      simp [setCount, lookupEdge, hk₂]
    · by_cases hk₂ : k = id₂
      · subst hk₂
        simp [setCount, lookupEdge, hk, h]
      · simp [setCount, lookupEdge, hk, hk₂, ih]

theorem setCount_inv {l : List (StageId × Edge)} {id : StageId} {cap cnt c : Int}
    (hl : ∀ e ∈ l, EdgeInv e) (hfind : lookupEdge l id = some (cap, cnt))
    (h0 : 0 ≤ c) (hc : c ≤ cap) : ∀ e ∈ setCount l id c, EdgeInv e := by
  induction l with
  | nil => simp [setCount]
  | cons hd tl ih =>
    obtain ⟨k, capₕ, cntₕ⟩ := hd
    by_cases hk : k = id
    · subst hk
      rw [lookupEdge, if_pos rfl, Option.some_inj, Prod.mk.injEq] at hfind
      rw [setCount, if_pos rfl]
      intro e he
      rcases List.mem_cons.mp he with h1 | h2
      · subst h1
        exact ⟨h0, hfind.1 ▸ hc⟩
      · exact hl e (List.mem_cons_of_mem _ h2)
    · rw [lookupEdge, if_neg hk] at hfind
      rw [setCount, if_neg hk]
      intro e he
      rcases List.mem_cons.mp he with h1 | h2
      · subst h1
        exact hl _ (List.mem_cons_self _ _)
      · exact ih (fun e he => hl e (List.mem_cons_of_mem _ he)) hfind e h2

/-! ### Behaviour of the two credit-propagation loops -/

theorem sendDataReadyAux_ok {l : List (StageId × Edge)}
    (h : ∀ e ∈ l, e.2.2 + 1 ≤ e.2.1) :
    sendDataReadyAux l = (none, l.map incUsedOne, l.map readyMsgOf) := by
  induction l with
  | nil => rfl
  | cons hd tl ih =>
    obtain ⟨d, cap, cnt⟩ := hd
    have hhd : cnt + 1 ≤ cap := h _ (List.mem_cons_self _ _)
    rw [sendDataReadyAux]
    simp only [if_pos hhd, ih (fun e he => h e (List.mem_cons_of_mem _ he))]
    rfl

theorem replyCompletedAux_ok {l : List (StageId × Edge)}
    (h : ∀ e ∈ l, 1 ≤ e.2.2) :
    replyCompletedAux l = (none, l.map decReadyOne, l.map uselessMsgOf) := by
  induction l with
  | nil => rfl
  | cons hd tl ih =>
    obtain ⟨u, cap, cnt⟩ := hd
    have hhd : (0:Int) ≤ cnt - 1 := by
      have h1 : (1:Int) ≤ cnt := h _ (List.mem_cons_self (u, cap, cnt) tl)
      omega
    rw [replyCompletedAux]
    simp only [if_pos hhd, ih (fun e he => h e (List.mem_cons_of_mem _ he))]
    rfl

theorem sendDataReadyAux_inv {l : List (StageId × Edge)}
    (h : ∀ e ∈ l, EdgeInv e) : ∀ e ∈ (sendDataReadyAux l).2.1, EdgeInv e := by
  induction l with
  | nil => simp [sendDataReadyAux]
  | cons hd tl ih =>
    obtain ⟨d, cap, cnt⟩ := hd
    have hhd : EdgeInv (d, cap, cnt) := h _ (List.mem_cons_self _ _)
    have htl : ∀ e ∈ tl, EdgeInv e := fun e he => h e (List.mem_cons_of_mem _ he)
    rw [sendDataReadyAux]
    by_cases hc : cnt + 1 ≤ cap
    · rw [if_pos hc]
      intro e he
      rcases List.mem_cons.mp he with h1 | h2
      · subst h1
        have h0 : (0:Int) ≤ cnt := hhd.1
        exact ⟨show (0:Int) ≤ cnt + 1 by omega, hc⟩
      · exact ih htl e h2
    · rw [if_neg hc]
      intro e he
      rcases List.mem_cons.mp he with h1 | h2
      · subst h1; exact hhd
      · exact htl e h2

theorem replyCompletedAux_inv {l : List (StageId × Edge)}
    (h : ∀ e ∈ l, EdgeInv e) : ∀ e ∈ (replyCompletedAux l).2.1, EdgeInv e := by
  induction l with
  | nil => simp [replyCompletedAux]
  | cons hd tl ih =>
    obtain ⟨u, cap, cnt⟩ := hd
    have hhd : EdgeInv (u, cap, cnt) := h _ (List.mem_cons_self _ _)
    have htl : ∀ e ∈ tl, EdgeInv e := fun e he => h e (List.mem_cons_of_mem _ he)
    rw [replyCompletedAux]
    by_cases hc : (0:Int) ≤ cnt - 1
    · rw [if_pos hc]
      intro e he
      rcases List.mem_cons.mp he with h1 | h2
      · subst h1
        refine ⟨hc, ?_⟩
        have h2 : cnt ≤ cap := hhd.2
        show cnt - 1 ≤ cap
        omega
      · exact ih htl e h2
    · rw [if_neg hc]
      intro e he
      rcases List.mem_cons.mp he with h1 | h2
      · subst h1; exact hhd
      · exact htl e h2

/-! ### The two loop guards -/

theorem isInputReady_iff (s : State) :
    IsInputReady s = true ↔ ∀ e ∈ s.in_readys, e.2.2 ≠ 0 := by
  simp [IsInputReady, List.all_eq_true]

theorem canWriteOutput_iff (s : State) :
    CanWriteOutput s = true ↔ ∀ e ∈ s.out_buffs, e.2.2 ≠ e.2.1 := by
  simp [CanWriteOutput, List.all_eq_true]

/-! ### The loop body under the guard -/

theorem gate_down {s : State} (h2 : CanWriteOutput s = true) (hInv : Inv s) :
    ∀ e ∈ s.out_buffs, e.2.2 + 1 ≤ e.2.1 := by
  intro e he
  have hne := (canWriteOutput_iff s).mp h2 e he
  have hle := (hInv.2 e he).2
  omega

theorem gate_up {s : State} (h1 : IsInputReady s = true) (hInv : Inv s) :
    ∀ e ∈ s.in_readys, 1 ≤ e.2.2 := by
  intro e he
  have hne := (isInputReady_iff s).mp h1 e he
  have h0 := (hInv.1 e he).1
  omega

theorem body_ok {ins outs : List (StageId × Edge)}
    (h1 : IsInputReady ⟨ins, outs⟩ = true) (h2 : CanWriteOutput ⟨ins, outs⟩ = true)
    (hInv : Inv ⟨ins, outs⟩) :
    SendDataReadyToDownStream ⟨ins, outs⟩ =
      (none, ⟨ins, outs.map incUsedOne⟩, outs.map readyMsgOf) ∧
    ReplyCompletedToUpStream ⟨ins, outs.map incUsedOne⟩ =
      (none, ⟨ins.map decReadyOne, outs.map incUsedOne⟩, ins.map uselessMsgOf) := by
  constructor
  · simp only [SendDataReadyToDownStream, sendDataReadyAux_ok (gate_down h2 hInv)]
  · simp only [ReplyCompletedToUpStream, replyCompletedAux_ok (gate_up h1 hInv)]

theorem post_inv {ins outs : List (StageId × Edge)} (hInv : Inv ⟨ins, outs⟩)
    (hd : ∀ e ∈ outs, e.2.2 + 1 ≤ e.2.1) (hu : ∀ e ∈ ins, 1 ≤ e.2.2) :
    Inv ⟨ins.map decReadyOne, outs.map incUsedOne⟩ := by
  constructor
  · intro e he
    obtain ⟨a, ha, rfl⟩ := List.mem_map.mp he
    have h0 := (hInv.1 a ha).2
    have h1 := hu a ha
    exact ⟨show (0:Int) ≤ a.2.2 - 1 by omega, show a.2.2 - 1 ≤ a.2.1 by omega⟩
  · intro e he
    obtain ⟨a, ha, rfl⟩ := List.mem_map.mp he
    have h0 := (hInv.2 a ha).1
    have h1 := hd a ha
    exact ⟨show (0:Int) ≤ a.2.2 + 1 by omega, h1⟩

/-! ### The Run loop: no fatal error and invariant preservation -/

theorem run_err_inv (fuel : Nat) :
    ∀ s : State, Inv s → (Run fuel s).err = none ∧ Inv (Run fuel s).st := by
  induction fuel with
  | zero =>
    intro s hInv
    rw [Run]
    split <;> exact ⟨rfl, hInv⟩
  | succ n ih =>
    rintro ⟨ins, outs⟩ hInv
    by_cases hg : (IsInputReady ⟨ins, outs⟩ && CanWriteOutput ⟨ins, outs⟩) = true
    · have h1 : IsInputReady ⟨ins, outs⟩ = true := ((Bool.and_eq_true _ _).mp hg).1
      have h2 : CanWriteOutput ⟨ins, outs⟩ = true := ((Bool.and_eq_true _ _).mp hg).2
      obtain ⟨hsend, hreply⟩ := body_ok h1 h2 hInv
      have hpost : Inv ⟨ins.map decReadyOne, outs.map incUsedOne⟩ :=
        post_inv hInv (gate_down h2 hInv) (gate_up h1 hInv)
      rw [Run, if_pos hg, hsend]
      dsimp only
      rw [hreply]
      exact ⟨(ih _ hpost).1, (ih _ hpost).2⟩
    · rw [Run, if_neg hg]
      exact ⟨rfl, hInv⟩

/-! ### Invariant preservation by each mutator, also on failure -/

theorem increaseReady_inv (id : StageId) {s : State} (hInv : Inv s) :
    Inv (IncreaseReady id s).2 := by
  rw [IncreaseReady]
  cases hfind : lookupEdge s.in_readys id with
  | none => exact hInv
  | some v =>
    obtain ⟨cap, cnt⟩ := v
    have h0 : (0:Int) ≤ cnt := (hInv.1 _ (lookupEdge_mem hfind)).1
    dsimp only
    by_cases hc : cnt + 1 ≤ cap
    · rw [if_pos hc]
      exact ⟨setCount_inv hInv.1 hfind (by omega) hc, hInv.2⟩
    · rw [if_neg hc]
      exact hInv

theorem decreaseBuff_inv (id : StageId) {s : State} (hInv : Inv s) :
    Inv (DecreaseBuff id s).2 := by
  rw [DecreaseBuff]
  cases hfind : lookupEdge s.out_buffs id with
  | none => exact hInv
  | some v =>
    obtain ⟨cap, cnt⟩ := v
    have hle : cnt ≤ cap := (hInv.2 _ (lookupEdge_mem hfind)).2
    dsimp only
    by_cases hc : (0:Int) ≤ cnt - 1
    · rw [if_pos hc]
      exact ⟨hInv.1, setCount_inv hInv.2 hfind hc (by omega)⟩
    · rw [if_neg hc]
      exact hInv

theorem sendDataReady_inv {s : State} (hInv : Inv s) :
    Inv (SendDataReadyToDownStream s).2.1 :=
  ⟨hInv.1, sendDataReadyAux_inv hInv.2⟩

theorem replyCompleted_inv {s : State} (hInv : Inv s) :
    Inv (ReplyCompletedToUpStream s).2.1 :=
  ⟨replyCompletedAux_inv hInv.1, hInv.2⟩

theorem compute_inv (fuel : Nat) (m : Msg) {s : State} (hInv : Inv s) :
    Inv (Compute fuel m s).st := by
  rw [Compute]
  cases hm : m.message_type
  case dataIsReady =>
    rcases hop : IncreaseReady m.src_id s with ⟨err, s'⟩
    have hs' : Inv s' := by
      have h := increaseReady_inv m.src_id hInv
      rw [hop] at h
      exact h
    cases err with
    | none => exact (run_err_inv fuel s' hs').2
    | some e => exact hs'
  case dateIsUseless =>
    rcases hop : DecreaseBuff m.src_id s with ⟨err, s'⟩
    have hs' : Inv s' := by
      have h := decreaseBuff_inv m.src_id hInv
      rw [hop] at h
      exact h
    cases err with
    | none => exact (run_err_inv fuel s' hs').2
    | some e => exact hs'
  case other => exact hInv

theorem computeSeq_inv (fuel : Nat) :
    ∀ (ms : List Msg) (s : State), Inv s → Inv (ComputeSeq fuel ms s).2 := by
  intro ms
  induction ms with
  | nil => intro s hInv; exact hInv
  | cons m rest ih =>
    intro s hInv
    rw [ComputeSeq]
    have hst : Inv (Compute fuel m s).st := compute_inv fuel m hInv
    cases herr : (Compute fuel m s).err with
    | none => exact ih _ hst
    | some e => exact hst

theorem prepareDeps_inv (ups downs : List StageId) : Inv (PrepareDeps ups downs) := by
  constructor
  · intro e he
    obtain ⟨a, ha, rfl⟩ := List.mem_map.mp he
    exact ⟨le_refl 0, by norm_num [int64Max]⟩
  · intro e he
    obtain ⟨a, ha, rfl⟩ := List.mem_map.mp he
    exact ⟨le_refl 0, by norm_num⟩

/-! ### No fatal error under the credit contract -/

theorem compute_valid (fuel : Nat) {s : State} {m : Msg} (hInv : Inv s)
    (hm : validMsg s m = true) : (Compute fuel m s).err = none := by
  rw [Compute]
  cases hty : m.message_type
  case dataIsReady =>
    rw [validMsg, hty] at hm
    cases hfind : lookupEdge s.in_readys m.src_id with
    | none => rw [hfind] at hm; simp at hm
    | some v =>
      obtain ⟨cap, cnt⟩ := v
      rw [hfind] at hm
      have hne : cnt ≠ cap := by simpa using hm
      have hmem := lookupEdge_mem hfind
      have hle : cnt ≤ cap := (hInv.1 _ hmem).2
      have h0 : (0:Int) ≤ cnt := (hInv.1 _ hmem).1
      have hc : cnt + 1 ≤ cap := by omega
      rw [IncreaseReady, hfind]
      dsimp only
      rw [if_pos hc]
      have hInv' : Inv { s with in_readys := setCount s.in_readys m.src_id (cnt + 1) } :=
        ⟨setCount_inv hInv.1 hfind (by omega) hc, hInv.2⟩
      exact (run_err_inv fuel _ hInv').1
  case dateIsUseless =>
    rw [validMsg, hty] at hm
    cases hfind : lookupEdge s.out_buffs m.src_id with
    | none => rw [hfind] at hm; simp at hm
    | some v =>
      obtain ⟨cap, cnt⟩ := v
      rw [hfind] at hm
      have hne : cnt ≠ 0 := by simpa using hm
      have hmem := lookupEdge_mem hfind
      have hle : cnt ≤ cap := (hInv.2 _ hmem).2
      have h0 : (0:Int) ≤ cnt := (hInv.2 _ hmem).1
      have hc : (0:Int) ≤ cnt - 1 := by omega
      rw [DecreaseBuff, hfind]
      dsimp only
      rw [if_pos hc]
      have hInv' : Inv { s with out_buffs := setCount s.out_buffs m.src_id (cnt - 1) } :=
        ⟨hInv.1, setCount_inv hInv.2 hfind hc (by omega)⟩
      exact (run_err_inv fuel _ hInv').1
  case other => rfl

theorem computeSeq_no_fatal (fuel : Nat) :
    ∀ (ms : List Msg) (s : State), Inv s → SeqValid fuel s ms →
      (ComputeSeq fuel ms s).1 = none := by
  intro ms
  induction ms with
  | nil => intro s _ _; rfl
  | cons m rest ih =>
    intro s hInv hv
    cases hv with
    | cons hm hrest =>
      rw [ComputeSeq]
      rw [compute_valid fuel hInv hm]
      exact ih _ (compute_inv fuel m hInv) hrest

/-! ### Termination bound of the Run loop -/

theorem minCnt_map_dec (l : List (StageId × Edge)) (h : l ≠ []) :
    minCnt (l.map decReadyOne) = minCnt l - 1 := by
  induction l with
  | nil => exact absurd rfl h
  | cons e tl ih =>
    cases tl with
    | nil => rfl
    | cons f r =>
      have ih2 := ih (by simp)
      simp only [List.map_cons] at ih2 ⊢
      rw [minCnt, minCnt]
      rw [ih2]
      have : (decReadyOne e).2.2 = e.2.2 - 1 := rfl
      rw [this]
      omega

theorem minCnt_ge_one (l : List (StageId × Edge)) (h : ∀ e ∈ l, 1 ≤ e.2.2)
    (hne : l ≠ []) : 1 ≤ minCnt l := by
  induction l with
  | nil => exact absurd rfl hne
  | cons e tl ih =>
    cases tl with
    | nil => exact h e (List.mem_cons_self _ _)
    | cons f r =>
      rw [minCnt]
      exact le_min (h e (List.mem_cons_self _ _))
        (ih (fun x hx => h x (List.mem_cons_of_mem _ hx)) (by simp))

theorem run_bound (fuel : Nat) :
    ∀ s : State, Inv s → s.in_readys ≠ [] → (minCnt s.in_readys).toNat < fuel →
      (Run fuel s).fuelExhausted = false ∧
      (Run fuel s).iters ≤ (minCnt s.in_readys).toNat := by
  induction fuel with
  | zero => intro s _ _ hf; exact absurd hf (Nat.not_lt_zero _)
  | succ n ih =>
    rintro ⟨ins, outs⟩ hInv hne hf
    by_cases hg : (IsInputReady ⟨ins, outs⟩ && CanWriteOutput ⟨ins, outs⟩) = true
    · have h1 : IsInputReady ⟨ins, outs⟩ = true := ((Bool.and_eq_true _ _).mp hg).1
      have h2 : CanWriteOutput ⟨ins, outs⟩ = true := ((Bool.and_eq_true _ _).mp hg).2
      obtain ⟨hsend, hreply⟩ := body_ok h1 h2 hInv
      have hpost : Inv ⟨ins.map decReadyOne, outs.map incUsedOne⟩ :=
        post_inv hInv (gate_down h2 hInv) (gate_up h1 hInv)
      have hne₀ : ins ≠ [] := hne
      have hup : ∀ e ∈ ins, 1 ≤ e.2.2 := gate_up h1 hInv
      have hmin1 : 1 ≤ minCnt ins := minCnt_ge_one _ hup hne₀
      have hmap : minCnt (ins.map decReadyOne) = minCnt ins - 1 := minCnt_map_dec _ hne₀
      have hne' : ins.map decReadyOne ≠ [] := by
        intro hc
        exact hne₀ (List.map_eq_nil_iff.mp hc)
      have hf₀ : (minCnt ins).toNat < n + 1 := hf
      have hf' : (minCnt (ins.map decReadyOne)).toNat < n := by
        rw [hmap]
        omega
      have hih := ih ⟨ins.map decReadyOne, outs.map incUsedOne⟩ hpost hne' hf'
      rw [Run, if_pos hg, hsend]
      dsimp only
      rw [hreply]
      dsimp only
      refine ⟨hih.1, ?_⟩
      have h2' := hih.2
      rw [hmap] at h2'
      show (Run n ⟨ins.map decReadyOne, outs.map incUsedOne⟩).iters + 1 ≤
        (minCnt ({ in_readys := ins, out_buffs := outs } : State).in_readys).toNat
      show (Run n ⟨ins.map decReadyOne, outs.map incUsedOne⟩).iters + 1 ≤ (minCnt ins).toNat
      omega
    · rw [Run, if_neg hg]
      exact ⟨rfl, Nat.zero_le _⟩

theorem run_saturated {s : State} (hsat : Saturated s) (fuel : Nat) :
    Run fuel s = ⟨none, s, [], 0, false⟩ := by
  have hcw : CanWriteOutput s = false := by
    obtain ⟨e, he, heq⟩ := hsat
    have hnt : ¬ CanWriteOutput s = true :=
      fun h => ((canWriteOutput_iff s).mp h e he) heq
    exact Bool.eq_false_iff.mpr hnt
  have hgate : ¬ ((IsInputReady s && CanWriteOutput s) = true) := by
    rw [hcw, Bool.and_false]
    exact Bool.false_ne_true
  cases fuel with
  | zero => rw [Run, if_neg hgate]
  | succ n => rw [Run, if_neg hgate]

/-! ### Divergence of the Run loop without any edge -/

theorem run_no_edges (fuel : Nat) :
    Run fuel ⟨[], []⟩ = ⟨none, ⟨[], []⟩, [], fuel, true⟩ := by
  induction fuel with
  | zero => rfl
  | succ n ih =>
    have hg : (IsInputReady ⟨[], []⟩ && CanWriteOutput ⟨[], []⟩) = true := rfl
    rw [Run, if_pos hg]
    dsimp only [SendDataReadyToDownStream, sendDataReadyAux,
      ReplyCompletedToUpStream, replyCompletedAux]
    rw [ih]
    rfl

/-! ### Partial mutation on a failing propagation loop -/

theorem sendDataReadyAux_fail (pre : List (StageId × Edge)) (d : StageId)
    (cap used : Int) (post : List (StageId × Edge))
    (hpre : ∀ e ∈ pre, e.2.2 + 1 ≤ e.2.1) (hfail : cap < used + 1) :
    sendDataReadyAux (pre ++ (d, (cap, used)) :: post) =
      (some (.creditOverflow d), pre.map incUsedOne ++ (d, (cap, used)) :: post,
        pre.map readyMsgOf) := by
  induction pre with
  | nil =>
    simp only [List.nil_append, List.map_nil]
    rw [sendDataReadyAux]
    dsimp only
    rw [if_neg (by omega)]
  | cons e tl ih =>
    obtain ⟨d₀, cap₀, cnt₀⟩ := e
    have he : cnt₀ + 1 ≤ cap₀ := hpre _ (List.mem_cons_self _ _)
    simp only [List.cons_append, List.map_cons]
    rw [sendDataReadyAux]
    dsimp only
    rw [if_pos he, ih (fun x hx => hpre x (List.mem_cons_of_mem _ hx))]
    rfl

theorem replyCompletedAux_fail (pre : List (StageId × Edge)) (u : StageId)
    (cap cnt : Int) (post : List (StageId × Edge))
    (hpre : ∀ e ∈ pre, 1 ≤ e.2.2) (hfail : cnt < 1) :
    replyCompletedAux (pre ++ (u, (cap, cnt)) :: post) =
      (some (.creditUnderflow u), pre.map decReadyOne ++ (u, (cap, cnt)) :: post,
        pre.map uselessMsgOf) := by
  induction pre with
  | nil =>
    simp only [List.nil_append, List.map_nil]
    rw [replyCompletedAux]
    dsimp only
    rw [if_neg (by omega)]
  | cons e tl ih =>
    obtain ⟨d₀, cap₀, cnt₀⟩ := e
    have he : (0:Int) ≤ cnt₀ - 1 := by
      have h1 : (1:Int) ≤ cnt₀ := hpre _ (List.mem_cons_self (d₀, cap₀, cnt₀) tl)
      omega
    simp only [List.cons_append, List.map_cons]
    rw [replyCompletedAux]
    dsimp only
    rw [if_pos he, ih (fun x hx => hpre x (List.mem_cons_of_mem _ hx))]
    rfl

/-! ### The claims -/

/-- C1: for every message sequence delivered to the handler that respects the
credit contract (`DATA_IS_READY` only from a configured upstream peer not at
capacity, `DATE_IS_USELESS` only from a configured downstream peer with a
nonzero `used_size`), processing the sequence via `Compute` from the initial
state built by `PrepareDeps` raises none of the fatal errors: every
`PADDLE_ENFORCE` branch in `IncreaseReady`, `DecreaseBuff`,
`SendDataReadyToDownStream` and `ReplyCompletedToUpStream` is unreachable. -/
theorem claim1_no_fatal_under_contract (fuel : Nat) (ups downs : List StageId)
    (ms : List Msg) (hv : SeqValid fuel (PrepareDeps ups downs) ms) :
    (ComputeSeq fuel ms (PrepareDeps ups downs)).1 = none :=
  computeSeq_no_fatal fuel ms _ (prepareDeps_inv ups downs) hv

theorem claim1_witness :
    (ComputeSeq 4 [⟨.dataIsReady, 1⟩, ⟨.dataIsReady, 1⟩] (PrepareDeps [1] [2])).1 =
      none :=
  claim1_no_fatal_under_contract 4 [1] [2] _
    (SeqValid.cons (by decide) (SeqValid.cons (by decide) (SeqValid.nil _)))

/-- C2: the initial state has all counters 0 and satisfies the invariant
`0 <= count <= capacity` on every edge; every reachable state (any message
sequence through the handler) satisfies it; and each of the four
counter-mutating operations preserves it, also when the operation fails
(a failing check stores nothing out of range). -/
theorem claim2_invariant :
    (∀ ups downs : List StageId, Inv (PrepareDeps ups downs)) ∧
    (∀ (fuel : Nat) (ms : List Msg) (ups downs : List StageId),
      Inv (ComputeSeq fuel ms (PrepareDeps ups downs)).2) ∧
    (∀ (id : StageId) (s : State), Inv s → Inv (IncreaseReady id s).2) ∧
    (∀ (id : StageId) (s : State), Inv s → Inv (DecreaseBuff id s).2) ∧
    (∀ s : State, Inv s → Inv (SendDataReadyToDownStream s).2.1) ∧
    (∀ s : State, Inv s → Inv (ReplyCompletedToUpStream s).2.1) :=
  ⟨prepareDeps_inv,
   fun fuel ms ups downs => computeSeq_inv fuel ms _ (prepareDeps_inv ups downs),
   fun id _ h => increaseReady_inv id h,
   fun id _ h => decreaseBuff_inv id h,
   fun _ h => sendDataReady_inv h,
   fun _ h => replyCompleted_inv h⟩

theorem claim2_witness :
    Inv (IncreaseReady 1 ⟨[(1, (3, 2))], [(2, (2, 1))]⟩).2 ∧
    Inv (DecreaseBuff 2 ⟨[(1, (3, 2))], [(2, (2, 1))]⟩).2 ∧
    Inv (SendDataReadyToDownStream ⟨[(1, (3, 2))], [(2, (2, 1))]⟩).2.1 ∧
    Inv (ReplyCompletedToUpStream ⟨[(1, (3, 2))], [(2, (2, 1))]⟩).2.1 :=
  ⟨claim2_invariant.2.2.1 1 _ (by decide),
   claim2_invariant.2.2.2.1 2 _ (by decide),
   claim2_invariant.2.2.2.2.1 _ (by decide),
   claim2_invariant.2.2.2.2.2 _ (by decide)⟩

/-- C3: for a stage with at least one upstream edge (and the counter invariant),
the Run loop terminates before exhausting `minCnt + 1` fuel, performing at most
`minCnt` iterations, where `minCnt` is the minimum `ready_size` over the
upstream edges at loop entry; and if some downstream edge is already saturated
(`used_size == max_buff_size`) the loop exits at once with zero iterations. -/
theorem claim3_run_terminates (fuel : Nat) (s : State) (hInv : Inv s)
    (hne : s.in_readys ≠ []) (hfuel : (minCnt s.in_readys).toNat < fuel) :
    (Run fuel s).fuelExhausted = false ∧
    (Run fuel s).iters ≤ (minCnt s.in_readys).toNat ∧
    (Saturated s → Run fuel s = ⟨none, s, [], 0, false⟩) :=
  ⟨(run_bound fuel s hInv hne hfuel).1, (run_bound fuel s hInv hne hfuel).2,
   fun hsat => run_saturated hsat fuel⟩

theorem claim3_witness :
    (Run 10 ⟨[(1, (5, 2))], [(2, (2, 2))]⟩).fuelExhausted = false ∧
    (Run 10 ⟨[(1, (5, 2))], [(2, (2, 2))]⟩).iters ≤ 2 ∧
    (Saturated ⟨[(1, (5, 2))], [(2, (2, 2))]⟩ →
      Run 10 ⟨[(1, (5, 2))], [(2, (2, 2))]⟩ =
        ⟨none, ⟨[(1, (5, 2))], [(2, (2, 2))]⟩, [], 0, false⟩) :=
  claim3_run_terminates 10 ⟨[(1, (5, 2))], [(2, (2, 2))]⟩
    (by decide) (by decide) (by decide)

/-- C4: a stage with one upstream peer (id 1, capacity 3) and one downstream
peer (id 2, capacity 2), from the initial state, after two `DATA_IS_READY`
messages from peer 1: two loop iterations in total, exactly two `DATA_IS_READY`
messages to peer 2 and exactly two `DATE_IS_USELESS` messages to peer 1 (four
messages in total), no error, final `ready_size` 0 and `used_size` 2. -/
theorem claim4_two_messages :
    (Compute 4 ⟨.dataIsReady, 1⟩ ⟨[(1, (3, 0))], [(2, (2, 0))]⟩).err = none ∧
    (Compute 4 ⟨.dataIsReady, 1⟩
      (Compute 4 ⟨.dataIsReady, 1⟩ ⟨[(1, (3, 0))], [(2, (2, 0))]⟩).st).err = none ∧
    (Compute 4 ⟨.dataIsReady, 1⟩ ⟨[(1, (3, 0))], [(2, (2, 0))]⟩).iters +
      (Compute 4 ⟨.dataIsReady, 1⟩
        (Compute 4 ⟨.dataIsReady, 1⟩ ⟨[(1, (3, 0))], [(2, (2, 0))]⟩).st).iters = 2 ∧
    ((Compute 4 ⟨.dataIsReady, 1⟩ ⟨[(1, (3, 0))], [(2, (2, 0))]⟩).msgs ++
      (Compute 4 ⟨.dataIsReady, 1⟩
        (Compute 4 ⟨.dataIsReady, 1⟩ ⟨[(1, (3, 0))], [(2, (2, 0))]⟩).st).msgs).count
      ⟨2, .dataIsReady⟩ = 2 ∧
    ((Compute 4 ⟨.dataIsReady, 1⟩ ⟨[(1, (3, 0))], [(2, (2, 0))]⟩).msgs ++
      (Compute 4 ⟨.dataIsReady, 1⟩
        (Compute 4 ⟨.dataIsReady, 1⟩ ⟨[(1, (3, 0))], [(2, (2, 0))]⟩).st).msgs).count
      ⟨1, .dateIsUseless⟩ = 2 ∧
    ((Compute 4 ⟨.dataIsReady, 1⟩ ⟨[(1, (3, 0))], [(2, (2, 0))]⟩).msgs ++
      (Compute 4 ⟨.dataIsReady, 1⟩
        (Compute 4 ⟨.dataIsReady, 1⟩ ⟨[(1, (3, 0))], [(2, (2, 0))]⟩).st).msgs).length
      = 4 ∧
    (Compute 4 ⟨.dataIsReady, 1⟩
      (Compute 4 ⟨.dataIsReady, 1⟩ ⟨[(1, (3, 0))], [(2, (2, 0))]⟩).st).st =
      ⟨[(1, (3, 0))], [(2, (2, 2))]⟩ := by
  decide

/-- C5: each Run loop iteration, taken only under the guard
`IsInputReady && CanWriteOutput`, first increments `used_size` by exactly 1 on
every downstream edge sending one `DATA_IS_READY` to each downstream peer, then
decrements `ready_size` by exactly 1 on every upstream edge sending one
`DATE_IS_USELESS` to each upstream peer; all downstream effects come before
all upstream effects, and `Run` emits the messages in exactly that order. -/
theorem claim5_body_order (s : State) (h1 : IsInputReady s = true)
    (h2 : CanWriteOutput s = true) (hInv : Inv s) :
    SendDataReadyToDownStream s =
      (none, ⟨s.in_readys, s.out_buffs.map incUsedOne⟩, s.out_buffs.map readyMsgOf) ∧
    ReplyCompletedToUpStream ⟨s.in_readys, s.out_buffs.map incUsedOne⟩ =
      (none, ⟨s.in_readys.map decReadyOne, s.out_buffs.map incUsedOne⟩,
        s.in_readys.map uselessMsgOf) ∧
    ∀ fuel : Nat,
      Run (fuel + 1) s =
        ⟨(Run fuel ⟨s.in_readys.map decReadyOne, s.out_buffs.map incUsedOne⟩).err,
         (Run fuel ⟨s.in_readys.map decReadyOne, s.out_buffs.map incUsedOne⟩).st,
         s.out_buffs.map readyMsgOf ++ s.in_readys.map uselessMsgOf ++
           (Run fuel ⟨s.in_readys.map decReadyOne, s.out_buffs.map incUsedOne⟩).msgs,
         (Run fuel ⟨s.in_readys.map decReadyOne, s.out_buffs.map incUsedOne⟩).iters + 1,
         (Run fuel ⟨s.in_readys.map decReadyOne,
           s.out_buffs.map incUsedOne⟩).fuelExhausted⟩ := by
  obtain ⟨ins, outs⟩ := s
  obtain ⟨hsend, hreply⟩ := body_ok h1 h2 hInv
  have hg : (IsInputReady ⟨ins, outs⟩ && CanWriteOutput ⟨ins, outs⟩) = true := by
    rw [h1, h2]
    rfl
  refine ⟨hsend, hreply, ?_⟩
  intro fuel
  rw [Run, if_pos hg, hsend]
  dsimp only
  rw [hreply]

theorem claim5_witness :
    SendDataReadyToDownStream (⟨[(1, (3, 1))], [(2, (2, 0))]⟩ : State) =
      (none, ⟨[(1, (3, 1))], [(2, (2, 1))]⟩, [⟨2, .dataIsReady⟩]) ∧
    ReplyCompletedToUpStream (⟨[(1, (3, 1))], [(2, (2, 1))]⟩ : State) =
      (none, ⟨[(1, (3, 0))], [(2, (2, 1))]⟩, [⟨1, .dateIsUseless⟩]) :=
  ⟨(claim5_body_order ⟨[(1, (3, 1))], [(2, (2, 0))]⟩
      (by decide) (by decide) (by decide)).1,
   (claim5_body_order ⟨[(1, (3, 1))], [(2, (2, 0))]⟩
      (by decide) (by decide) (by decide)).2.1⟩

/-- C6: `IncreaseReady` on a peer id absent from `in_readys_` fails with the
unknown-peer error and changes nothing; on a configured peer already at (or,
degenerately, above) capacity it fails with the overflow error and changes
nothing; otherwise it increments that peer's `ready_size` by exactly 1,
leaving `out_buffs_`, that edge's capacity and every other peer's entry
unchanged. -/
theorem claim6_increaseReady_spec (s : State) (id : StageId) :
    (lookupEdge s.in_readys id = none →
      IncreaseReady id s = (some (.unknownPeer id), s)) ∧
    (∀ cap cnt : Int, lookupEdge s.in_readys id = some (cap, cnt) →
      (cap ≤ cnt → IncreaseReady id s = (some (.creditOverflow id), s)) ∧
      (cnt < cap →
        IncreaseReady id s =
          (none, ⟨setCount s.in_readys id (cnt + 1), s.out_buffs⟩) ∧
        lookupEdge (setCount s.in_readys id (cnt + 1)) id = some (cap, cnt + 1) ∧
        ∀ id₂ : StageId, id₂ ≠ id →
          lookupEdge (setCount s.in_readys id (cnt + 1)) id₂ =
            lookupEdge s.in_readys id₂)) := by
  constructor
  · intro hfind
    rw [IncreaseReady, hfind]
  · intro cap cnt hfind
    constructor
    · intro hge
      rw [IncreaseReady, hfind]
      dsimp only
      rw [if_neg (by omega)]
    · intro hlt
      refine ⟨?_, lookup_setCount_self _ hfind, fun id₂ h => lookup_setCount_ne h⟩
      rw [IncreaseReady, hfind]
      dsimp only
      rw [if_pos (by omega)]

theorem claim6_witness :
    IncreaseReady 9 ⟨[(1, (3, 2))], []⟩ = (some (.unknownPeer 9), ⟨[(1, (3, 2))], []⟩) ∧
    IncreaseReady 1 ⟨[(1, (3, 3))], []⟩ = (some (.creditOverflow 1), ⟨[(1, (3, 3))], []⟩) ∧
    IncreaseReady 1 ⟨[(1, (3, 2))], []⟩ = (none, ⟨[(1, (3, 3))], []⟩) :=
  ⟨(claim6_increaseReady_spec ⟨[(1, (3, 2))], []⟩ 9).1 (by decide),
   ((claim6_increaseReady_spec ⟨[(1, (3, 3))], []⟩ 1).2 3 3 (by decide)).1 (by decide),
   ((((claim6_increaseReady_spec ⟨[(1, (3, 2))], []⟩ 1).2 3 2 (by decide)).2)
     (by decide)).1⟩

/-- C7: a `DATE_IS_USELESS` message from a configured downstream peer whose
`used_size` is 0 makes `DecreaseBuff` fail with the underflow error, and the
handler leaves the stage state exactly as it was: the failing decrement stores
nothing and `Run` is never reached. -/
theorem claim7_underflow_no_mutation (fuel : Nat) (s : State) (id : StageId)
    (cap : Int) (hfind : lookupEdge s.out_buffs id = some (cap, 0)) :
    DecreaseBuff id s = (some (.creditUnderflow id), s) ∧
    Compute fuel ⟨.dateIsUseless, id⟩ s =
      ⟨some (.creditUnderflow id), s, [], 0, false⟩ := by
  have hd : DecreaseBuff id s = (some (.creditUnderflow id), s) := by
    rw [DecreaseBuff, hfind]
    dsimp only
    rw [if_neg (by omega)]
  refine ⟨hd, ?_⟩
  rw [Compute]
  dsimp only
  rw [hd]

theorem claim7_witness :
    Compute 6 ⟨.dateIsUseless, 2⟩ ⟨[(1, (3, 1))], [(2, (2, 0))]⟩ =
      ⟨some (.creditUnderflow 2), ⟨[(1, (3, 1))], [(2, (2, 0))]⟩, [], 0, false⟩ :=
  (claim7_underflow_no_mutation 6 ⟨[(1, (3, 1))], [(2, (2, 0))]⟩ 2 2 (by decide)).2

/-- C8: under nonnegative `ready_size` counters (the invariant), `IsInputReady`
is true iff every upstream edge has `ready_size > 0`, and is vacuously true
with no upstream edges; under `used_size <= capacity` (the invariant),
`CanWriteOutput` is true iff every downstream edge has
`used_size < max_buff_size`, and is vacuously true with no downstream edges. -/
theorem claim8_guards (s : State) :
    ((∀ e ∈ s.in_readys, 0 ≤ e.2.2) →
      (IsInputReady s = true ↔ ∀ e ∈ s.in_readys, 0 < e.2.2)) ∧
    (s.in_readys = [] → IsInputReady s = true) ∧
    ((∀ e ∈ s.out_buffs, e.2.2 ≤ e.2.1) →
      (CanWriteOutput s = true ↔ ∀ e ∈ s.out_buffs, e.2.2 < e.2.1)) ∧
    (s.out_buffs = [] → CanWriteOutput s = true) := by
  refine ⟨?_, ?_, ?_, ?_⟩
  · intro h0
    rw [isInputReady_iff]
    constructor
    · intro h e he
      have h1 := h e he
      have h2 := h0 e he
      omega
    · intro h e he
      have h1 := h e he
      omega
  · intro h
    rw [IsInputReady, h]
    rfl
  · intro h0
    rw [canWriteOutput_iff]
    constructor
    · intro h e he
      have h1 := h e he
      have h2 := h0 e he
      omega
    · intro h e he
      have h1 := h e he
      omega
  · intro h
    rw [CanWriteOutput, h]
    rfl

theorem claim8_witness :
    (IsInputReady ⟨[(1, (3, 1))], [(2, (2, 1))]⟩ = true ↔
      ∀ e ∈ [((1 : StageId), ((3 : Int), (1 : Int)))], 0 < e.2.2) ∧
    (CanWriteOutput ⟨[(1, (3, 1))], [(2, (2, 1))]⟩ = true ↔
      ∀ e ∈ [((2 : StageId), ((2 : Int), (1 : Int)))], e.2.2 < e.2.1) :=
  ⟨(claim8_guards ⟨[(1, (3, 1))], [(2, (2, 1))]⟩).1 (by decide),
   (claim8_guards ⟨[(1, (3, 1))], [(2, (2, 1))]⟩).2.2.1 (by decide)⟩

/-- C9: when `SendDataReadyToDownStream` overflows on some downstream entry,
the `used_size` increments and `DATA_IS_READY` sends already performed for the
entries iterated before the failing one persist (nothing is rolled back or
retracted), while the failing entry and the later ones are untouched and unsent;
symmetrically for `ReplyCompletedToUpStream` on underflow.  The per-iteration
credit propagation is not atomic across edges on error. -/
theorem claim9_partial_mutation :
    (∀ (ins pre post : List (StageId × Edge)) (d : StageId) (cap used : Int),
      (∀ e ∈ pre, e.2.2 + 1 ≤ e.2.1) → cap < used + 1 →
      SendDataReadyToDownStream ⟨ins, pre ++ (d, (cap, used)) :: post⟩ =
        (some (.creditOverflow d),
         ⟨ins, pre.map incUsedOne ++ (d, (cap, used)) :: post⟩,
         pre.map readyMsgOf)) ∧
    (∀ (outs pre post : List (StageId × Edge)) (u : StageId) (cap cnt : Int),
      (∀ e ∈ pre, 1 ≤ e.2.2) → cnt < 1 →
      ReplyCompletedToUpStream ⟨pre ++ (u, (cap, cnt)) :: post, outs⟩ =
        (some (.creditUnderflow u),
         ⟨pre.map decReadyOne ++ (u, (cap, cnt)) :: post, outs⟩,
         pre.map uselessMsgOf)) := by
  constructor
  · intro ins pre post d cap used hpre hfail
    rw [SendDataReadyToDownStream]
    dsimp only
    rw [sendDataReadyAux_fail pre d cap used post hpre hfail]
  · intro outs pre post u cap cnt hpre hfail
    rw [ReplyCompletedToUpStream]
    dsimp only
    rw [replyCompletedAux_fail pre u cap cnt post hpre hfail]

theorem claim9_witness :
    SendDataReadyToDownStream (⟨[], [(1, (2, 0)), (3, (2, 2))]⟩ : State) =
      (some (.creditOverflow 3), ⟨[], [(1, (2, 1)), (3, (2, 2))]⟩,
        [⟨1, .dataIsReady⟩]) ∧
    ReplyCompletedToUpStream (⟨[(1, (3, 2)), (3, (3, 0))], []⟩ : State) =
      (some (.creditUnderflow 3), ⟨[(1, (3, 1)), (3, (3, 0))], []⟩,
        [⟨1, .dateIsUseless⟩]) :=
  ⟨claim9_partial_mutation.1 [] [(1, (2, 0))] [] 3 2 2 (by decide) (by decide),
   claim9_partial_mutation.2 [] [(1, (3, 2))] [] 3 3 0 (by decide) (by decide)⟩

/-- C10: for a stage with no upstream and no downstream edges, both loop guards
are vacuously true and one Run-loop iteration changes nothing and sends nothing,
so the `while` loop in `Run` never exits: every amount of fuel is consumed with
the guard still true and the state unchanged. -/
theorem claim10_no_edges_diverges (s : State) (hin : s.in_readys = [])
    (hout : s.out_buffs = []) :
    (IsInputReady s && CanWriteOutput s) = true ∧
    ∀ fuel : Nat, Run fuel s = ⟨none, s, [], fuel, true⟩ := by
  obtain ⟨ins, outs⟩ := s
  have hin' : ins = [] := hin
  have hout' : outs = [] := hout
  subst hin'
  subst hout'
  exact ⟨rfl, run_no_edges⟩

theorem claim10_witness :
    Run 3 (⟨[], []⟩ : State) = ⟨none, ⟨[], []⟩, [], 3, true⟩ :=
  (claim10_no_edges_diverges ⟨[], []⟩ rfl rfl).2 3

end ComputeInterceptor
